import Mathlib

/-!
# Column inference of the file source plugin (`plugin/plugin.go`)

A shallow embedding of `getColumn`, `stringInSlice`, `getColumns`, the path
handling of `readFromSpec`, `decodeCsv`, `decodeJson` and `dynamicTables`.

Go values of static type `interface{}` are modelled by `Value`, one
constructor per dynamic type the source switches on.  A Go map is modelled by
the list of its entries in one (arbitrary) iteration order; Go maps have
distinct keys, which theorems about records state as `Nodup` of the key list.
Go strings are modelled by Lean strings (sequences of Unicode characters).
-/

namespace Plugin

/-- A Go `error` value. -/
structure GoError where
  msg : String
deriving DecidableEq

/-- The value carried by a Go `panic`. -/
inductive PanicValue
  /-- A call `panic(err)` with an error value. -/
  | goError (e : GoError)
  /-- A failed single-value type assertion `x.(T)`. -/
  | interfaceConversion
  /-- An index expression `s[i]` with `i ≥ len(s)`. -/
  | indexOutOfRange (index len : Nat)
  /-- A slice expression `s[i:]` with `i > len(s)`. -/
  | sliceBoundsOutOfRange (low len : Nat)
deriving DecidableEq

/-- How a call ends: it returns a value (with a nil error), it returns a
non-nil error (and a nil value), it panics, or it ends the process through
`log.Fatal`. -/
inductive Outcome (α : Type)
  | ok (a : α)
  | error (e : GoError)
  | panic (p : PanicValue)
  | fatal (e : GoError)
deriving DecidableEq

/-- A Go value of static type `interface{}`, by dynamic type. -/
inductive Value
  /-- The nil interface (JSON `null`). -/
  | nil
  | bool (b : Bool)
  /-- Dynamic type `int`. -/
  | int (i : Int)
  /-- Dynamic type `float64`; every JSON number decodes to this type.  Only
  finite values arise, each a rational number. -/
  | float64 (f : ℚ)
  | string (s : String)
  /-- Dynamic type `chan int`. -/
  | chanInt
  /-- Dynamic type `map[string]interface{}`: the entries in iteration order. -/
  | mapStringAny (entries : List (String × Value))
  /-- Dynamic type `[]interface{}`. -/
  | sliceAny (elems : List Value)
  /-- Any other dynamic type, by name. -/
  | other (typeName : String)

/-- The arrow data types `getColumn` assigns. -/
inductive DataType
  | Boolean
  | Int64
  | Float64
  | String
  | JSON
deriving DecidableEq

/-- A column resolver; `getColumn` only builds `schema.PathResolver(name)`. -/
inductive ColumnResolver
  | PathResolver (path : String)
deriving DecidableEq

/-- The access path of a column resolver. -/
def ColumnResolver.path : ColumnResolver → String
  | .PathResolver p => p

/-- The fields of `schema.Column` that `getColumn` sets. -/
structure Column where
  Name : String
  Type_ : DataType
  Resolver : ColumnResolver
deriving DecidableEq

/-- The fields of `FileSpec` (`Indexes` is a set of names mapped to flags). -/
structure FileSpec where
  Table : String
  Path : String
  Jmespath : String
  Indexes : List (String × Bool)
  Except : List String
  Only : List String
deriving DecidableEq

/-- The type switch of `getColumn`: declared type and name suffix. -/
def getColumnType : Value → DataType × String
  | .bool _ => (.Boolean, ":bool")
  | .int _ => (.Int64, ":int")
  | .float64 _ => (.Float64, ":float")
  | .string _ => (.String, ":str")
  | .chanInt => (.Int64, ":int")
  | .mapStringAny _ => (.JSON, ":json")
  | .sliceAny _ => (.JSON, ":json")
  | _ => (.String, ":str")

/-- The function `getColumn`. -/
def getColumn (name : String) (x : Value) : Column :=
  { Name := name ++ (getColumnType x).2
    Type_ := (getColumnType x).1
    Resolver := .PathResolver name }

/-- The function `stringInSlice`. -/
def stringInSlice (a : String) : List String → Bool
  | [] => false
  | b :: list => if b = a then true else stringInSlice a list

/-- The loop of `getColumns` over the entries of `one`, appending to `columns`. -/
def getColumnsLoop (spec : FileSpec) : List (String × Value) → List Column → List Column
  | [], columns => columns
  | (k, v) :: one, columns =>
    if stringInSlice k spec.Except then getColumnsLoop spec one columns
    else if !stringInSlice k spec.Only then getColumnsLoop spec one columns
    else getColumnsLoop spec one (columns ++ [getColumn k v])

/-- The function `getColumns`.  `one` starts as the nil map, which has no
entries; the assertion `tmp[0].(map[string]interface{})` panics when the first
element has another dynamic type. -/
def getColumns (result : Value) (spec : FileSpec) : Outcome (List Column) :=
  match result with
  | .sliceAny tmp =>
    match tmp with
    | [] => .ok []
    | .mapStringAny one :: _ => .ok (getColumnsLoop spec one [])
    | _ :: _ => .panic .interfaceConversion
  | .mapStringAny one => .ok (getColumnsLoop spec one [])
  | _ => .ok (getColumnsLoop spec [] [])

/-! ## The string functions the source calls -/

namespace unicode

/-- The function `unicode.IsSpace`: the white space characters of Unicode. -/
def IsSpace (r : Char) : Bool :=
  decide (r.toNat ∈ [0x09, 0x0A, 0x0B, 0x0C, 0x0D, 0x20, 0x85, 0xA0, 0x1680,
    0x2028, 0x2029, 0x202F, 0x205F, 0x3000]) || (decide (0x2000 ≤ r.toNat) && decide (r.toNat ≤ 0x200A))

end unicode

namespace strings

/-- The function `strings.HasPrefix`. -/
def HasPrefix (s pre : String) : Bool :=
  pre.data.isPrefixOf s.data

/-- The pieces of a character sequence between occurrences of `sep`. -/
def splitChars (sep : Char) : List Char → List (List Char)
  | [] => [[]]
  | c :: cs =>
    if c = sep then [] :: splitChars sep cs
    else
      match splitChars sep cs with
      | [] => [[c]]
      | p :: ps => (c :: p) :: ps

/-- The function `strings.Split` for a separator of one character (the source
passes `"/"`). -/
def Split (s : String) (sep : Char) : List String :=
  (splitChars sep s.data).map String.mk

/-- The function `strings.Join`. -/
def Join : List String → String → String
  | [], _ => ""
  | [a], _ => a
  | a :: b :: elems, sep => a ++ sep ++ Join (b :: elems) sep

/-- The function `strings.TrimSpace`: leading and trailing white space removed. -/
def TrimSpace (s : String) : String :=
  String.mk ((s.data.dropWhile unicode.IsSpace).reverse.dropWhile unicode.IsSpace).reverse

end strings

/-! ## Reading and decoding -/

/-- One call of `Decode` on a `json.Decoder`: the next top-level value of the
stream, or a decoding error other than `io.EOF`. -/
inductive DecodeStep
  | value (v : Value)
  | decodeError (e : GoError)

/-- An `io.Reader` as the JSON decoder sees it: what the successive calls of
`Decode` yield before the stream is exhausted and `Decode` returns `io.EOF`. -/
abbrev Reader := List DecodeStep

/-- The loop of `decodeJson`: a value is appended, `io.EOF` breaks, any other
error goes to `log.Fatal`. -/
def decodeJsonLoop : Reader → List Value → Outcome (List Value)
  | [], values => .ok values
  | .value v :: d, values => decodeJsonLoop d (values ++ [v])
  | .decodeError err :: _, _ => .fatal err

/-- The function `decodeJson`. -/
def decodeJson (r : Reader) : Outcome Value :=
  match decodeJsonLoop r [] with
  | .ok values => .ok (.sliceAny values)
  | .error e => .error e
  | .panic p => .panic p
  | .fatal e => .fatal e

/-- What `readFromSpec` takes from outside the program: the error of
`session.NewSession` (`none` for nil), the body or error of `GetObject` by
bucket and key, the file or error of `os.Open` by path, and the library
function `jmespath.Search` by expression and data. -/
structure World where
  NewSession : Option GoError
  GetObject : String → String → Except GoError Reader
  Open : String → Except GoError Reader
  Search : String → Value → Except GoError Value

/-- The lines of `readFromSpec` that split an `s3://` path: `parts[2]` is the
bucket, `parts[3:]` joined by `"/"` the key. -/
def s3BucketKey (path : String) : Outcome (String × String) :=
  let parts := strings.Split path '/'
  match parts[2]? with
  | none => .panic (.indexOutOfRange 2 parts.length)
  | some bucket =>
    if 3 ≤ parts.length then .ok (bucket, strings.Join (parts.drop 3) "/")
    else .panic (.sliceBoundsOutOfRange 3 parts.length)

/-- The first part of `readFromSpec`: the stream `readable`, or the early
return of an error. -/
def readFromSpecReadable (W : World) (spec : FileSpec) : Outcome Reader :=
  if strings.HasPrefix spec.Path "s3://" then
    match s3BucketKey spec.Path with
    | .ok (bucket, key) =>
      match W.NewSession with
      | some err => .error err
      | none =>
        match W.GetObject bucket key with
        | .error err => .error err
        | .ok body => .ok body
    | .error e => .error e
    | .panic p => .panic p
    | .fatal e => .fatal e
  else
    match W.Open spec.Path with
    | .error err => .error err
    | .ok file => .ok file

/-- The function `readFromSpec`: the decoded data goes to `jmespath.Search`
with `spec.Jmespath` as it is, and what the search returns is returned.  The
error of `decodeJson` is not looked at. -/
def readFromSpec (W : World) (spec : FileSpec) : Outcome Value :=
  match readFromSpecReadable W spec with
  | .ok readable =>
    match decodeJson readable with
    | .ok data =>
      match W.Search spec.Jmespath data with
      | .ok result => .ok result
      | .error err => .error err
    | .error _ =>
      match W.Search spec.Jmespath .nil with
      | .ok result => .ok result
      | .error err => .error err
    | .panic p => .panic p
    | .fatal e => .fatal e
  | .error err => .error err
  | .panic p => .panic p
  | .fatal e => .fatal e

/-! ## CSV -/

/-- The assignment `m[k] = v` on a map given by its entries. -/
def mapAssign {β : Type} : List (String × β) → String → β → List (String × β)
  | [], k, v => [(k, v)]
  | (k', v') :: m, k, v => if k' = k then (k', v) :: m else (k', v') :: mapAssign m k v

/-- The index expression `m[k]` with the comma-ok form: the value under `k`. -/
def mapIndex {β : Type} : List (String × β) → String → Option β
  | [], _ => none
  | (k', v') :: m, k => if k' = k then some v' else mapIndex m k

/-- The header loop of `decodeCsv`: every cell of the first row, trimmed, is
appended to `header`. -/
def decodeCsvHeader : List String → List String → List String
  | [], header => header
  | cell :: record, header => decodeCsvHeader record (header ++ [strings.TrimSpace cell])

/-- The row loop of `decodeCsv` from index `i` on: `line[header[i]] = record[i]`;
`header[i]` panics when the row is longer than the header. -/
def decodeCsvLine (header : List String) :
    Nat → List String → List (String × String) → Outcome (List (String × String))
  | _, [], line => .ok line
  | i, cell :: record, line =>
    match header[i]? with
    | none => .panic (.indexOutOfRange i header.length)
    | some h => decodeCsvLine header (i + 1) record (mapAssign line h cell)

/-- The loop of `decodeCsv` over the rows, from line number `lineNum` on. -/
def decodeCsvLoop : Nat → List (List String) → List (List (String × String)) → List String →
    Outcome (List (List (String × String)))
  | _, [], results, _ => .ok results
  | lineNum, record :: readall, results, header =>
    if lineNum = 0 then
      decodeCsvLoop (lineNum + 1) readall results (decodeCsvHeader record header)
    else
      match decodeCsvLine header 0 record [] with
      | .ok line => decodeCsvLoop (lineNum + 1) readall (results ++ [line]) header
      | .error e => .error e
      | .panic p => .panic p
      | .fatal e => .fatal e

/-- The function `decodeCsv`, on what `reader.ReadAll()` returned; `Errorf`
stands for `fmt.Errorf` applied to the message of the error. -/
def decodeCsv (Errorf : String → GoError) (ReadAll : Except GoError (List (List String))) :
    Outcome (List (List (String × String))) :=
  match ReadAll with
  | .error err => .error (Errorf err.msg)
  | .ok readall => decodeCsvLoop 0 readall [] []

/-! ## Tables -/

/-- The fields of `schema.Table` that `dynamicTables` sets.  A resolver takes
the values already sent on the channel `res` and gives the values sent after
the call together with the returned error (`none` for nil). -/
structure Table where
  Name : String
  Resolver : List Value → List Value × Option GoError
  Columns : List Column

/-- The resolver closure of `dynamicTables` over `result` and `errJson`. -/
def tableResolver (result : Value) (errJson : Option GoError) (res : List Value) :
    List Value × Option GoError :=
  if errJson = none then (res ++ [result], errJson) else (res, errJson)

/-- The client: the configured files. -/
structure Client where
  Files : List FileSpec

/-- The loop of `dynamicTables` over the files, appending to `tables`. -/
def dynamicTablesLoop (W : World) : List FileSpec → List Table → Outcome (List Table)
  | [], tables => .ok tables
  | spec :: files, tables =>
    match readFromSpec W spec with
    | .error errJson => .panic (.goError errJson)
    | .panic p => .panic p
    | .fatal e => .fatal e
    | .ok result =>
      match getColumns result spec with
      | .ok columns =>
        dynamicTablesLoop W files
          (tables ++ [{ Name := spec.Table, Resolver := tableResolver result none, Columns := columns }])
      | .error e => .error e
      | .panic p => .panic p
      | .fatal e => .fatal e

/-- The function `dynamicTables`. -/
def dynamicTables (W : World) (client : Client) : Outcome (List Table) :=
  dynamicTablesLoop W client.Files []

/-- What `dynamicTables` registers for a file whose read succeeded: the table
is named `spec.Table`, its columns are `getColumns` of the filtered result, and
its resolver sends exactly that result and returns a nil error. -/
def Registered (W : World) (spec : FileSpec) (t : Table) : Prop :=
  t.Name = spec.Table ∧
    ∃ result, readFromSpec W spec = .ok result ∧ getColumns result spec = .ok t.Columns ∧
      ∀ res, t.Resolver res = (res ++ [result], none)

/-! ## A sample configuration -/

/-- A local file `data.json` holding two JSON documents; every other path is
missing and no object store is reachable.  The search evaluates `@`, the
current node, to the data itself and rejects the empty expression as
incomplete. -/
def sampleWorld : World where
  NewSession := none
  GetObject := fun _ _ => .error ⟨"NoSuchBucket"⟩
  Open := fun path =>
    if path = "data.json" then
      .ok [.value (.mapStringAny [("id", .float64 1), ("name", .string "x")]),
        .value (.mapStringAny [("id", .float64 2), ("name", .string "y")])]
    else .error ⟨"open: no such file or directory"⟩
  Search := fun expression data =>
    if expression = "@" then .ok data
    else if expression = "" then .error ⟨"SyntaxError: Incomplete expression"⟩
    else .error ⟨"evaluation failed"⟩

/-- The table `t` over `data.json` with the empty query. -/
def sampleSpec : FileSpec :=
  { Table := "t", Path := "data.json", Jmespath := "", Indexes := [], Except := [],
    Only := ["id", "name"] }

/-- The table `u` over `data.json` with the query `@`. -/
def currentNodeSpec : FileSpec :=
  { Table := "u", Path := "data.json", Jmespath := "@", Indexes := [], Except := [],
    Only := ["id", "name"] }

/-- A table over a file that does not exist. -/
def missingSpec : FileSpec :=
  { Table := "m", Path := "missing.json", Jmespath := "", Indexes := [], Except := [],
    Only := ["id"] }

end Plugin

namespace Plugin

/-! ## Projection by `only` and `except` -/

theorem stringInSlice_iff (a : String) (list : List String) :
    stringInSlice a list = true ↔ a ∈ list := by
  induction list with
  | nil => simp [stringInSlice]
  | cons b list ih =>
    by_cases h : b = a
    · simp [stringInSlice, h]
    · have h' : ¬ a = b := fun e => h e.symm
      simp [stringInSlice, h, h', ih]

theorem getColumnsLoop_eq (spec : FileSpec) (one : List (String × Value)) (columns : List Column) :
    getColumnsLoop spec one columns =
      columns ++ (one.filter (fun kv => decide (kv.1 ∈ spec.Only ∧ kv.1 ∉ spec.Except))).map
        (fun kv => getColumn kv.1 kv.2) := by
  induction one generalizing columns with
  | nil => simp [getColumnsLoop]
  | cons kv one ih =>
    obtain ⟨k, v⟩ := kv
    by_cases he : k ∈ spec.Except
    · have : stringInSlice k spec.Except = true := (stringInSlice_iff _ _).2 he
      simp [getColumnsLoop, this, ih, he]
    · have h1 : stringInSlice k spec.Except = false := by
        rw [Bool.eq_false_iff]; exact fun h => he ((stringInSlice_iff _ _).1 h)
      by_cases ho : k ∈ spec.Only
      · have h2 : stringInSlice k spec.Only = true := (stringInSlice_iff _ _).2 ho
        simp [getColumnsLoop, h1, h2, ih, he, ho]
      · have h2 : stringInSlice k spec.Only = false := by
          rw [Bool.eq_false_iff]; exact fun h => ho ((stringInSlice_iff _ _).1 h)
        simp [getColumnsLoop, h1, h2, ih, ho]

theorem getColumn_path (k : String) (v : Value) : (getColumn k v).Resolver.path = k := rfl

theorem getColumns_ok_cases (result : Value) (spec : FileSpec) (columns : List Column)
    (h : getColumns result spec = .ok columns) :
    ∃ one, columns = getColumnsLoop spec one [] := by
  unfold getColumns at h
  split at h
  · split at h
    · exact ⟨[], by cases h; rfl⟩
    · exact ⟨_, by cases h; rfl⟩
    · cases h
  · exact ⟨_, by cases h; rfl⟩
  · exact ⟨[], by cases h; rfl⟩

/-- C1: no column returned by `getColumns` is built from a field named in
`spec.Except`, also when the name is in `spec.Only` as well; a record filtered
with `only = ["a"]` and `except = ["a"]` gives no columns. -/
theorem getColumns_except_wins (result : Value) (spec : FileSpec) :
    (∀ columns, getColumns result spec = .ok columns →
      ∀ col ∈ columns, col.Resolver.path ∉ spec.Except) ∧
    (∀ (one : List (String × Value)) (table path jmespath : String) (indexes : List (String × Bool)),
      getColumns (.mapStringAny one) ⟨table, path, jmespath, indexes, ["a"], ["a"]⟩ = .ok []) := by
  constructor
  · intro columns h col hcol
    obtain ⟨one, rfl⟩ := getColumns_ok_cases result spec columns h
    rw [getColumnsLoop_eq] at hcol
    simp only [List.nil_append, List.mem_map, List.mem_filter, decide_eq_true_eq] at hcol
    obtain ⟨kv, ⟨_, _, hne⟩, rfl⟩ := hcol
    exact hne
  · intro one table path jmespath indexes
    simp only [getColumns, getColumnsLoop_eq]
    simp

theorem getColumns_except_wins_witness :
    getColumns (.mapStringAny [("a", .bool true), ("b", .string "x")])
        ⟨"t", "f.json", "", [], ["a"], ["a", "b"]⟩ = .ok [⟨"b:str", .String, .PathResolver "b"⟩] ∧
      (⟨"b:str", .String, .PathResolver "b"⟩ : Column) ∈ [(⟨"b:str", .String, .PathResolver "b"⟩ : Column)] ∧
      (⟨"b:str", .String, .PathResolver "b"⟩ : Column).Resolver.path ∉
        (⟨"t", "f.json", "", [], ["a"], ["a", "b"]⟩ : FileSpec).Except :=
  ⟨by decide, List.mem_singleton.2 rfl,
    (getColumns_except_wins (.mapStringAny [("a", .bool true), ("b", .string "x")])
      ⟨"t", "f.json", "", [], ["a"], ["a", "b"]⟩).1 [⟨"b:str", .String, .PathResolver "b"⟩] (by decide)
      ⟨"b:str", .String, .PathResolver "b"⟩ (List.mem_singleton.2 rfl)⟩

theorem getColumnsLoop_paths (spec : FileSpec) (one : List (String × Value)) :
    (getColumnsLoop spec one []).map (fun c => c.Resolver.path) =
      (one.map Prod.fst).filter (fun k => decide (k ∈ spec.Only ∧ k ∉ spec.Except)) := by
  rw [getColumnsLoop_eq]
  simp only [List.nil_append, List.map_map, List.filter_map]
  rfl

/-- C2: for a record with distinct keys, alone or as the first element of a
list, `getColumns` returns one column per field that is in `spec.Only` and not
in `spec.Except`: the access paths of the columns are those field names, each
once, every column is `getColumn` of such a field and its value, and an empty
`only` list gives no columns. -/
theorem getColumns_only_allow_list (one : List (String × Value)) (rest : List Value)
    (spec : FileSpec) (hkeys : (one.map Prod.fst).Nodup) :
    ∃ columns, getColumns (.mapStringAny one) spec = .ok columns ∧
      getColumns (.sliceAny (.mapStringAny one :: rest)) spec = .ok columns ∧
      columns.map (fun c => c.Resolver.path) =
        (one.map Prod.fst).filter (fun k => decide (k ∈ spec.Only ∧ k ∉ spec.Except)) ∧
      (columns.map (fun c => c.Resolver.path)).Nodup ∧
      (∀ col ∈ columns, ∃ k v, (k, v) ∈ one ∧ k ∈ spec.Only ∧ k ∉ spec.Except ∧ col = getColumn k v) ∧
      (∀ k v, (k, v) ∈ one → k ∈ spec.Only → k ∉ spec.Except → getColumn k v ∈ columns) ∧
      (spec.Only = [] → columns = []) := by
  refine ⟨getColumnsLoop spec one [], rfl, rfl, getColumnsLoop_paths spec one, ?_, ?_, ?_, ?_⟩
  · rw [getColumnsLoop_paths]
    exact hkeys.filter _
  · intro col hcol
    rw [getColumnsLoop_eq] at hcol
    simp only [List.nil_append, List.mem_map, List.mem_filter, decide_eq_true_eq] at hcol
    obtain ⟨⟨k, v⟩, ⟨hmem, ho, he⟩, rfl⟩ := hcol
    exact ⟨k, v, hmem, ho, he, rfl⟩
  · intro k v hmem ho he
    rw [getColumnsLoop_eq]
    simp only [List.nil_append, List.mem_map, List.mem_filter, decide_eq_true_eq]
    exact ⟨(k, v), ⟨hmem, ho, he⟩, rfl⟩
  · intro ho
    rw [getColumnsLoop_eq]
    simp [ho]

theorem getColumns_only_allow_list_witness :
    ([("a", Value.bool true), ("b", Value.string "x"), ("c", Value.nil)].map Prod.fst).Nodup ∧
    ∃ columns, getColumns (.mapStringAny [("a", .bool true), ("b", .string "x"), ("c", .nil)])
        ⟨"t", "f.json", "", [], ["c"], ["b", "c"]⟩ = .ok columns ∧
      getColumns (.sliceAny (.mapStringAny [("a", .bool true), ("b", .string "x"), ("c", .nil)] :: []))
        ⟨"t", "f.json", "", [], ["c"], ["b", "c"]⟩ = .ok columns ∧
      columns.map (fun c => c.Resolver.path) =
        ([("a", Value.bool true), ("b", Value.string "x"), ("c", Value.nil)].map Prod.fst).filter
          (fun k => decide (k ∈ (⟨"t", "f.json", "", [], ["c"], ["b", "c"]⟩ : FileSpec).Only ∧
            k ∉ (⟨"t", "f.json", "", [], ["c"], ["b", "c"]⟩ : FileSpec).Except)) ∧
      (columns.map (fun c => c.Resolver.path)).Nodup ∧
      (∀ col ∈ columns, ∃ k v, (k, v) ∈ [("a", Value.bool true), ("b", Value.string "x"), ("c", Value.nil)] ∧
        k ∈ (⟨"t", "f.json", "", [], ["c"], ["b", "c"]⟩ : FileSpec).Only ∧
        k ∉ (⟨"t", "f.json", "", [], ["c"], ["b", "c"]⟩ : FileSpec).Except ∧ col = getColumn k v) ∧
      (∀ k v, (k, v) ∈ [("a", Value.bool true), ("b", Value.string "x"), ("c", Value.nil)] →
        k ∈ (⟨"t", "f.json", "", [], ["c"], ["b", "c"]⟩ : FileSpec).Only →
        k ∉ (⟨"t", "f.json", "", [], ["c"], ["b", "c"]⟩ : FileSpec).Except → getColumn k v ∈ columns) ∧
      ((⟨"t", "f.json", "", [], ["c"], ["b", "c"]⟩ : FileSpec).Only = [] → columns = []) :=
  ⟨by decide,
    getColumns_only_allow_list [("a", .bool true), ("b", .string "x"), ("c", .nil)] []
      ⟨"t", "f.json", "", [], ["c"], ["b", "c"]⟩ (by decide)⟩

/-! ## Classification of values -/

/-- C3 at the failing input: the JSON number `1` decodes to a `float64`, an
integer-valued numeric, and `getColumn` gives it a float column with suffix
`:float`, not the integer column of the `int` case; the decoded record with
`a = 1`, `b = "x"`, `c = true` does not yield the column `a:int`. -/
theorem getColumn_integer_valued_not_int :
    getColumn "a" (.float64 ((1 : ℤ) : ℚ)) = ⟨"a:float", .Float64, .PathResolver "a"⟩ ∧
    getColumn "a" (.float64 ((1 : ℤ) : ℚ)) ≠ ⟨"a:int", .Int64, .PathResolver "a"⟩ ∧
    getColumns (.mapStringAny [("a", .float64 ((1 : ℤ) : ℚ)), ("b", .string "x"), ("c", .bool true)])
        ⟨"t", "f.json", "", [], [], ["a", "b", "c"]⟩ =
      .ok [⟨"a:float", .Float64, .PathResolver "a"⟩, ⟨"b:str", .String, .PathResolver "b"⟩,
        ⟨"c:bool", .Boolean, .PathResolver "c"⟩] ∧
    (⟨"a:int", .Int64, .PathResolver "a"⟩ : Column) ∉
      [(⟨"a:float", .Float64, .PathResolver "a"⟩ : Column), ⟨"b:str", .String, .PathResolver "b"⟩,
        ⟨"c:bool", .Boolean, .PathResolver "c"⟩] := by
  refine ⟨by decide, by decide, by decide, by decide⟩

/-- The type switch of `getColumn`, case by case: the access path is `n`, and
the name suffix and declared type follow the dynamic type of the value. -/
theorem getColumn_by_dynamic_type (n : String) :
    (∀ b, getColumn n (.bool b) = ⟨n ++ ":bool", .Boolean, .PathResolver n⟩) ∧
    (∀ i, getColumn n (.int i) = ⟨n ++ ":int", .Int64, .PathResolver n⟩) ∧
    (∀ f, getColumn n (.float64 f) = ⟨n ++ ":float", .Float64, .PathResolver n⟩) ∧
    (∀ s, getColumn n (.string s) = ⟨n ++ ":str", .String, .PathResolver n⟩) ∧
    getColumn n .chanInt = ⟨n ++ ":int", .Int64, .PathResolver n⟩ ∧
    (∀ m, getColumn n (.mapStringAny m) = ⟨n ++ ":json", .JSON, .PathResolver n⟩) ∧
    (∀ l, getColumn n (.sliceAny l) = ⟨n ++ ":json", .JSON, .PathResolver n⟩) ∧
    getColumn n .nil = ⟨n ++ ":str", .String, .PathResolver n⟩ ∧
    (∀ t, getColumn n (.other t) = ⟨n ++ ":str", .String, .PathResolver n⟩) ∧
    (∀ f : ℚ, getColumns (.mapStringAny [("a", .float64 f), ("b", .string "x"), ("c", .bool true)])
        ⟨"t", "f.json", "", [], [], ["a", "b", "c"]⟩ =
      .ok [⟨"a:float", .Float64, .PathResolver "a"⟩, ⟨"b:str", .String, .PathResolver "b"⟩,
        ⟨"c:bool", .Boolean, .PathResolver "c"⟩]) ∧
    getColumns (.mapStringAny [("a", .int 1), ("b", .string "x"), ("c", .bool true)])
        ⟨"t", "f.json", "", [], [], ["a", "b", "c"]⟩ =
      .ok [⟨"a:int", .Int64, .PathResolver "a"⟩, ⟨"b:str", .String, .PathResolver "b"⟩,
        ⟨"c:bool", .Boolean, .PathResolver "c"⟩] := by
  refine ⟨fun _ => rfl, fun _ => rfl, fun _ => rfl, fun _ => rfl, rfl, fun _ => rfl, fun _ => rfl,
    rfl, fun _ => rfl, fun _ => rfl, by decide⟩

/-! ## The representative record -/

/-- C4: for a list whose first element is a record, `getColumns` gives what it
gives for that record alone, whatever the later elements are; two lists with
the same first record give the same columns; and another iteration order of
the record gives the same columns up to order. -/
theorem getColumns_first_record_only (one one' : List (String × Value)) (rest rest' : List Value)
    (spec : FileSpec) (hperm : one.Perm one') :
    getColumns (.sliceAny (.mapStringAny one :: rest)) spec = getColumns (.mapStringAny one) spec ∧
    getColumns (.sliceAny (.mapStringAny one :: rest)) spec =
      getColumns (.sliceAny (.mapStringAny one :: rest')) spec ∧
    ∃ columns columns', getColumns (.sliceAny (.mapStringAny one :: rest)) spec = .ok columns ∧
      getColumns (.mapStringAny one') spec = .ok columns' ∧ columns.Perm columns' := by
  refine ⟨rfl, rfl, getColumnsLoop spec one [], getColumnsLoop spec one' [], rfl, rfl, ?_⟩
  rw [getColumnsLoop_eq, getColumnsLoop_eq]
  exact ((hperm.filter _).map _).append_left _

theorem getColumns_first_record_only_witness :
    [("a", Value.bool true), ("b", Value.string "x")].Perm [("b", Value.string "x"), ("a", Value.bool true)] ∧
    getColumns (.sliceAny [.mapStringAny [("a", .bool true), ("b", .string "x")], .nil, .int 3])
        ⟨"t", "f.json", "", [], [], ["a", "b"]⟩ =
      getColumns (.mapStringAny [("a", .bool true), ("b", .string "x")])
        ⟨"t", "f.json", "", [], [], ["a", "b"]⟩ :=
  ⟨List.Perm.swap _ _ _,
    (getColumns_first_record_only [("a", .bool true), ("b", .string "x")]
      [("b", .string "x"), ("a", .bool true)] [.nil, .int 3] []
      ⟨"t", "f.json", "", [], [], ["a", "b"]⟩ (List.Perm.swap _ _ _)).1⟩

/-- C5: for the empty list `getColumns` returns the empty column sequence. -/
theorem getColumns_empty_list (spec : FileSpec) : getColumns (.sliceAny []) spec = .ok [] := rfl

/-- C10 at the failing input: for a non-empty list whose first element is not
a record (a number, nil, or a list of records), the type assertion of
`getColumns` panics and no column sequence is returned. -/
theorem getColumns_panics_on_non_record_first (spec : FileSpec) (rest : List Value) :
    getColumns (.sliceAny (.float64 1 :: rest)) spec = .panic .interfaceConversion ∧
    getColumns (.sliceAny (.nil :: rest)) spec = .panic .interfaceConversion ∧
    getColumns (.sliceAny (.sliceAny [.mapStringAny [("id", .float64 1)]] :: rest)) spec =
      .panic .interfaceConversion :=
  ⟨rfl, rfl, rfl⟩

/-! ## Object-store paths -/

theorem splitChars_ne_nil (sep : Char) (cs : List Char) : strings.splitChars sep cs ≠ [] := by
  cases cs with
  | nil => simp [strings.splitChars]
  | cons c cs =>
    unfold strings.splitChars
    split
    · simp
    · split <;> simp

theorem splitChars_append_sep (sep : Char) (a b : List Char) (ha : sep ∉ a) :
    strings.splitChars sep (a ++ sep :: b) = a :: strings.splitChars sep b := by
  induction a with
  | nil => simp [strings.splitChars]
  | cons c a ih =>
    have hc : ¬ c = sep := fun e => ha (by simp [e])
    have ha' : sep ∉ a := fun h => ha (List.mem_cons_of_mem _ h)
    simp [strings.splitChars, hc, ih ha']

theorem join_splitChars (cs : List Char) :
    strings.Join ((strings.splitChars '/' cs).map String.mk) "/" = String.mk cs := by
  induction cs with
  | nil => rfl
  | cons c cs ih =>
    unfold strings.splitChars
    by_cases hc : c = '/'
    · subst hc
      rw [if_pos rfl]
      cases hs : strings.splitChars '/' cs with
      | nil => exact absurd hs (splitChars_ne_nil _ _)
      | cons p ps =>
        rw [hs] at ih
        simp only [List.map_cons, strings.Join] at ih ⊢
        rw [String.append_assoc, ih]
        rfl
    · rw [if_neg hc]
      cases hs : strings.splitChars '/' cs with
      | nil => exact absurd hs (splitChars_ne_nil _ _)
      | cons p ps =>
        rw [hs] at ih
        cases ps with
        | nil =>
          simp only [List.map_cons, List.map_nil, strings.Join] at ih ⊢
          injection ih with ih
          rw [ih]
        | cons q qs =>
          simp only [List.map_cons, strings.Join] at ih ⊢
          apply String.ext
          have := congrArg String.data ih
          simp only [String.data_append] at this ⊢
          simp only [List.cons_append, this]

/-- C6: for a bucket name `b` without `/` and any key `k`, the path
`"s3://" + b + "/" + k` takes the object-store branch of `readFromSpec`, is
split into bucket `b` and key `k` without an index out of range, and the
object is fetched under that bucket and key; `s3://bucket-a/dir/sub/file.json`
gives bucket `bucket-a` and key `dir/sub/file.json`. -/
theorem s3BucketKey_splits (b k : String) (hb : '/' ∉ b.data) :
    strings.HasPrefix ("s3://" ++ b ++ "/" ++ k) "s3://" = true ∧
    s3BucketKey ("s3://" ++ b ++ "/" ++ k) = .ok (b, k) ∧
    (∀ (W : World) (spec : FileSpec), spec.Path = "s3://" ++ b ++ "/" ++ k → W.NewSession = none →
      readFromSpecReadable W spec =
        match W.GetObject b k with
        | .error err => .error err
        | .ok body => .ok body) ∧
    s3BucketKey "s3://bucket-a/dir/sub/file.json" = .ok ("bucket-a", "dir/sub/file.json") := by
  have hdata : ("s3://" ++ b ++ "/" ++ k).data =
      ['s', '3', ':'] ++ '/' :: ([] ++ '/' :: (b.data ++ '/' :: k.data)) := by
    simp only [String.data_append]
    simp
  have hpre : strings.HasPrefix ("s3://" ++ b ++ "/" ++ k) "s3://" = true := by
    unfold strings.HasPrefix
    rw [hdata]
    have h1 : ("s3://" : String).data = ['s', '3', ':', '/', '/'] := rfl
    rw [h1]
    simp [List.isPrefixOf]
  have hsplit : strings.Split ("s3://" ++ b ++ "/" ++ k) '/' =
      "s3:" :: "" :: b :: strings.Split k '/' := by
    unfold strings.Split
    rw [hdata, splitChars_append_sep _ _ _ (by decide), splitChars_append_sep _ _ _ (by simp),
      splitChars_append_sep _ _ _ hb]
    rfl
  have hkey : s3BucketKey ("s3://" ++ b ++ "/" ++ k) = .ok (b, k) := by
    unfold s3BucketKey
    simp only [hsplit]
    have hj : strings.Join (strings.Split k '/') "/" = k := join_splitChars k.data
    simp [hj]
  refine ⟨hpre, hkey, ?_, by decide⟩
  intro W spec hpath hsess
  unfold readFromSpecReadable
  rw [hpath, hpre, if_pos rfl, hkey]
  simp only [hsess]

theorem s3BucketKey_splits_witness :
    '/' ∉ ("my-bucket" : String).data ∧
    s3BucketKey ("s3://" ++ "my-bucket" ++ "/" ++ "a/b//c.json") = .ok ("my-bucket", "a/b//c.json") :=
  ⟨by decide, (s3BucketKey_splits "my-bucket" "a/b//c.json" (by decide)).2.1⟩

/-! ## CSV decoding -/

theorem decodeCsvHeader_eq (record header : List String) :
    decodeCsvHeader record header = header ++ record.map strings.TrimSpace := by
  induction record generalizing header with
  | nil => simp [decodeCsvHeader]
  | cons cell record ih => simp [decodeCsvHeader, ih]

theorem mapAssign_of_not_mem {β : Type} (m : List (String × β)) (k : String) (v : β)
    (hk : k ∉ m.map Prod.fst) : mapAssign m k v = m ++ [(k, v)] := by
  induction m with
  | nil => rfl
  | cons kv m ih =>
    obtain ⟨k', v'⟩ := kv
    have hne : ¬ k' = k := fun e => hk (by simp [e])
    have hk' : k ∉ m.map Prod.fst := fun h => hk (by simp only [List.map_cons]; exact List.mem_cons_of_mem _ h)
    simp [mapAssign, hne, ih hk']

theorem decodeCsvLine_eq (hs : List String) :
    ∀ (cells pre : List String) (line : List (String × String)),
      hs.length = cells.length → hs.Nodup → (∀ h ∈ hs, h ∉ line.map Prod.fst) →
      decodeCsvLine (pre ++ hs) pre.length cells line = .ok (line ++ hs.zip cells) := by
  induction hs with
  | nil =>
    intro cells pre line hlen _ _
    cases cells with
    | nil => simp [decodeCsvLine]
    | cons c cells => simp at hlen
  | cons h hs ih =>
    intro cells pre line hlen hnd hfresh
    cases cells with
    | nil => simp at hlen
    | cons c cells =>
      have hget : (pre ++ h :: hs)[pre.length]? = some h := by
        rw [List.getElem?_append_right (Nat.le_refl _)]
        simp
      have hassign : mapAssign line h c = line ++ [(h, c)] :=
        mapAssign_of_not_mem line h c (hfresh h (List.mem_cons_self _ _))
      have hnd' := List.nodup_cons.1 hnd
      have hstep := ih cells (pre ++ [h]) (line ++ [(h, c)]) (by simpa using hlen) hnd'.2
        (by
          intro h' hh' hmem
          simp only [List.map_append, List.map_cons, List.map_nil, List.mem_append,
            List.mem_singleton] at hmem
          rcases hmem with hmem | hmem
          · exact hfresh h' (List.mem_cons_of_mem _ hh') hmem
          · exact hnd'.1 (hmem ▸ hh'))
      simp only [List.append_assoc, List.singleton_append, List.length_append,
        List.length_singleton] at hstep
      simp only [decodeCsvLine, hget, hassign, hstep, List.zip_cons_cons]

theorem decodeCsvLoop_eq (header : List String) (hnd : header.Nodup) (rows : List (List String)) :
    ∀ (lineNum : Nat) (results : List (List (String × String))), lineNum ≠ 0 →
      (∀ row ∈ rows, row.length = header.length) →
      decodeCsvLoop lineNum rows results header =
        .ok (results ++ rows.map (fun row => header.zip row)) := by
  induction rows with
  | nil => intro lineNum results _ _; simp [decodeCsvLoop]
  | cons row rows ih =>
    intro lineNum results hne hlen
    have hline : decodeCsvLine header 0 row [] = .ok (header.zip row) := by
      have := decodeCsvLine_eq header row [] [] (hlen row (List.mem_cons_self _ _)).symm hnd
        (by simp)
      simpa using this
    have hrest := ih (lineNum + 1) (results ++ [header.zip row]) (Nat.succ_ne_zero _)
      (fun r hr => hlen r (List.mem_cons_of_mem _ hr))
    simp only [decodeCsvLoop, if_neg hne, hline, hrest, List.append_assoc, List.singleton_append,
      List.map_cons]

theorem mapIndex_zip (keys : List String) :
    ∀ (vals : List String) (i : Nat) (k v : String), keys.Nodup →
      keys[i]? = some k → vals[i]? = some v → mapIndex (keys.zip vals) k = some v := by
  induction keys with
  | nil => intro vals i k v _ hk _; simp at hk
  | cons key keys ih =>
    intro vals i k v hnd hk hv
    have hnd' := List.nodup_cons.1 hnd
    cases vals with
    | nil => simp at hv
    | cons val vals =>
      cases i with
      | zero =>
        simp only [List.getElem?_cons_zero, Option.some.injEq] at hk hv
        simp [mapIndex, hk, hv]
      | succ i =>
        simp only [List.getElem?_cons_succ] at hk hv
        have hne : ¬ key = k := by
          intro e
          exact hnd'.1 (e ▸ List.getElem?_mem hk)
        simp only [List.zip_cons_cons, mapIndex, if_neg hne]
        exact ih vals i k v hnd'.2 hk hv

/-- C7 as stated fails: for the CSV input with header `a,a` and the data row
`1,2` (H = 2, N = 1) `decodeCsv` returns one record with the single key `a`,
not two keys, and `a` is mapped to the cell `2` of the second column, not to
the cell `1` of the first. -/
theorem decodeCsv_duplicate_header_names :
    decodeCsv GoError.mk (.ok [["a", "a"], ["1", "2"]]) = .ok [[("a", "2")]] ∧
    ([("a", "2")] : List (String × String)).length ≠ (["a", "a"] : List String).length ∧
    mapIndex [("a", "2")] (strings.TrimSpace "a") ≠ some "1" := by
  refine ⟨by decide, by decide, by decide⟩

/-- C7 amended: when the trimmed names of the header row are pairwise distinct
and every data row has as many cells as the header, `decodeCsv` returns one
record per data row, in row order, and the record of a row has as keys exactly
the trimmed header names, each mapped to the unchanged cell of the row in that
column. -/
theorem decodeCsv_shape (Errorf : String → GoError) (hdr : List String) (rows : List (List String))
    (hnames : (hdr.map strings.TrimSpace).Nodup) (hcells : ∀ row ∈ rows, row.length = hdr.length) :
    ∃ results, decodeCsv Errorf (.ok (hdr :: rows)) = .ok results ∧
      results.length = rows.length ∧
      ∀ (j : Nat) (row : List String), rows[j]? = some row →
        ∃ line, results[j]? = some line ∧
          line.length = hdr.length ∧
          line.map Prod.fst = hdr.map strings.TrimSpace ∧
          line.map Prod.snd = row ∧
          ∀ (i : Nat) (name cell : String), hdr[i]? = some name → row[i]? = some cell →
            mapIndex line (strings.TrimSpace name) = some cell := by
  have hloop := decodeCsvLoop_eq (hdr.map strings.TrimSpace) hnames rows 1 [] (by decide)
    (by simpa using hcells)
  refine ⟨rows.map (fun row => (hdr.map strings.TrimSpace).zip row), ?_, by simp, ?_⟩
  · simp only [decodeCsv, decodeCsvLoop, if_pos, decodeCsvHeader_eq, List.nil_append]
    simpa using hloop
  · intro j row hrow
    have hlen : row.length = hdr.length := hcells row (List.getElem?_mem hrow)
    refine ⟨(hdr.map strings.TrimSpace).zip row, by simp [hrow], by simp [hlen], ?_, ?_, ?_⟩
    · rw [← List.unzip_fst, List.unzip_zip (by simp [hlen])]
    · rw [← List.unzip_snd, List.unzip_zip (by simp [hlen])]
    · intro i name cell hname hcell
      exact mapIndex_zip _ row i _ cell hnames (by simp [hname]) hcell

theorem decodeCsv_shape_witness :
    ((["id", " name "] : List String).map strings.TrimSpace).Nodup ∧
    (∀ row ∈ ([["1", "x"], ["2", " y"]] : List (List String)), row.length = ["id", " name "].length) ∧
    ∃ results, decodeCsv GoError.mk (.ok (["id", " name "] :: [["1", "x"], ["2", " y"]])) = .ok results ∧
      results.length = ([["1", "x"], ["2", " y"]] : List (List String)).length ∧
      ∀ (j : Nat) (row : List String), ([["1", "x"], ["2", " y"]] : List (List String))[j]? = some row →
        ∃ line, results[j]? = some line ∧
          line.length = (["id", " name "] : List String).length ∧
          line.map Prod.fst = (["id", " name "] : List String).map strings.TrimSpace ∧
          line.map Prod.snd = row ∧
          ∀ (i : Nat) (name cell : String), (["id", " name "] : List String)[i]? = some name →
            row[i]? = some cell → mapIndex line (strings.TrimSpace name) = some cell :=
  ⟨by decide, by decide,
    decodeCsv_shape GoError.mk ["id", " name "] [["1", "x"], ["2", " y"]] (by decide) (by decide)⟩

/-! ## JSON streams and the path query -/

theorem decodeJsonLoop_values (vs values : List Value) :
    decodeJsonLoop (vs.map DecodeStep.value) values = .ok (values ++ vs) := by
  induction vs generalizing values with
  | nil => simp [decodeJsonLoop]
  | cons v vs ih => simp [decodeJsonLoop, ih]

theorem decodeJson_values (vs : List Value) :
    decodeJson (vs.map DecodeStep.value) = .ok (.sliceAny vs) := by
  simp [decodeJson, decodeJsonLoop_values]

/-- C8 as stated fails: `readFromSpec` has no case for the empty expression;
the well-formed stream of two documents is decoded, the empty expression goes
to `jmespath.Search` as it is, and the error of the search, which rejects it,
is returned in place of the sequence. -/
theorem readFromSpec_empty_query_error :
    sampleSpec.Jmespath = "" ∧
    readFromSpecReadable sampleWorld sampleSpec =
      .ok ([Value.mapStringAny [("id", .float64 1), ("name", .string "x")],
        Value.mapStringAny [("id", .float64 2), ("name", .string "y")]].map DecodeStep.value) ∧
    readFromSpec sampleWorld sampleSpec = .error ⟨"SyntaxError: Incomplete expression"⟩ :=
  ⟨rfl, rfl, rfl⟩

/-- C8 amended: for a well-formed stream of top-level JSON values `decodeJson`
returns those values in stream order, and `readFromSpec` returns what
`jmespath.Search` returns for `spec.Jmespath` on that sequence, an error as an
error and a result as the result; when the search returns the sequence
unchanged, the length of the result is the number of top-level values of the
stream. -/
theorem readFromSpec_returns_search (W : World) (spec : FileSpec) (vs : List Value)
    (hread : readFromSpecReadable W spec = .ok (vs.map DecodeStep.value)) :
    decodeJson (vs.map DecodeStep.value) = .ok (.sliceAny vs) ∧
    (∀ e, W.Search spec.Jmespath (.sliceAny vs) = .error e → readFromSpec W spec = .error e) ∧
    (∀ r, W.Search spec.Jmespath (.sliceAny vs) = .ok r → readFromSpec W spec = .ok r) ∧
    (W.Search spec.Jmespath (.sliceAny vs) = .ok (.sliceAny vs) →
      ∃ out, readFromSpec W spec = .ok (.sliceAny out) ∧ out = vs ∧
        out.length = (vs.map DecodeStep.value).length) := by
  refine ⟨decodeJson_values vs, ?_, ?_, ?_⟩
  · intro e he
    simp only [readFromSpec, hread, decodeJson_values, he]
  · intro r hr
    simp only [readFromSpec, hread, decodeJson_values, hr]
  · intro hid
    refine ⟨vs, ?_, rfl, by simp⟩
    simp only [readFromSpec, hread, decodeJson_values, hid]

theorem readFromSpec_returns_search_witness :
    readFromSpecReadable sampleWorld currentNodeSpec =
      .ok ([Value.mapStringAny [("id", .float64 1), ("name", .string "x")],
        Value.mapStringAny [("id", .float64 2), ("name", .string "y")]].map DecodeStep.value) ∧
    sampleWorld.Search currentNodeSpec.Jmespath
        (.sliceAny [.mapStringAny [("id", .float64 1), ("name", .string "x")],
          .mapStringAny [("id", .float64 2), ("name", .string "y")]]) =
      .ok (.sliceAny [.mapStringAny [("id", .float64 1), ("name", .string "x")],
        .mapStringAny [("id", .float64 2), ("name", .string "y")]]) ∧
    readFromSpec sampleWorld currentNodeSpec =
      .ok (.sliceAny [.mapStringAny [("id", .float64 1), ("name", .string "x")],
        .mapStringAny [("id", .float64 2), ("name", .string "y")]]) :=
  ⟨rfl, rfl,
    (readFromSpec_returns_search sampleWorld currentNodeSpec
      [.mapStringAny [("id", .float64 1), ("name", .string "x")],
        .mapStringAny [("id", .float64 2), ("name", .string "y")]] rfl).2.2.1 _ rfl⟩

/-! ## Table registration -/

theorem dynamicTablesLoop_ok (W : World) (files : List FileSpec) :
    ∀ (tables out : List Table), dynamicTablesLoop W files tables = .ok out →
      ∃ new, out = tables ++ new ∧ List.Forall₂ (Registered W) files new := by
  induction files with
  | nil =>
    intro tables out h
    simp only [dynamicTablesLoop, Outcome.ok.injEq] at h
    exact ⟨[], by simp [h], List.Forall₂.nil⟩
  | cons spec files ih =>
    intro tables out h
    unfold dynamicTablesLoop at h
    split at h
    · cases h
    · cases h
    · cases h
    · rename_i result hresult
      split at h
      · rename_i columns hcolumns
        obtain ⟨new, hout, hall⟩ := ih _ out h
        refine ⟨{ Name := spec.Table, Resolver := tableResolver result none, Columns := columns } :: new,
          by simp [hout], List.Forall₂.cons ?_ hall⟩
        exact ⟨rfl, result, hresult, hcolumns, fun res => rfl⟩
      · cases h
      · cases h
      · cases h

theorem dynamicTablesLoop_returns (W : World) (files : List FileSpec) :
    ∀ (tables : List Table),
      (∀ s ∈ files, ∃ r cols, readFromSpec W s = .ok r ∧ getColumns r s = .ok cols) →
      ∃ out, dynamicTablesLoop W files tables = .ok out := by
  induction files with
  | nil => intro tables _; exact ⟨tables, rfl⟩
  | cons spec files ih =>
    intro tables hall
    obtain ⟨r, cols, hr, hc⟩ := hall spec (List.mem_cons_self _ _)
    obtain ⟨out, hout⟩ := ih
      (tables ++ [{ Name := spec.Table, Resolver := tableResolver r none, Columns := cols }])
      (fun s hs => hall s (List.mem_cons_of_mem _ hs))
    exact ⟨out, by simp only [dynamicTablesLoop, hr, hc, hout]⟩

theorem dynamicTablesLoop_read_error (W : World) (pre : List FileSpec) :
    ∀ (spec : FileSpec) (post : List FileSpec) (e : GoError) (tables : List Table),
      (∀ s ∈ pre, ∃ r cols, readFromSpec W s = .ok r ∧ getColumns r s = .ok cols) →
      readFromSpec W spec = .error e →
      dynamicTablesLoop W (pre ++ spec :: post) tables = .panic (.goError e) := by
  induction pre with
  | nil =>
    intro spec post e tables _ herr
    simp only [List.nil_append, dynamicTablesLoop, herr]
  | cons s pre ih =>
    intro spec post e tables hall herr
    obtain ⟨r, cols, hr, hc⟩ := hall s (List.mem_cons_self _ _)
    have := ih spec post e
      (tables ++ [{ Name := s.Table, Resolver := tableResolver r none, Columns := cols }])
      (fun s' hs' => hall s' (List.mem_cons_of_mem _ hs')) herr
    simp only [List.cons_append, dynamicTablesLoop, hr, hc]
    exact this

/-- C9 as stated fails: when `readFromSpec` fails for a spec (here the file is
missing), `dynamicTables` panics with that error; it returns no tables, so no
table and no resolver is registered for the spec. -/
theorem dynamicTables_read_error_panics :
    readFromSpec sampleWorld missingSpec = .error ⟨"open: no such file or directory"⟩ ∧
    dynamicTables sampleWorld ⟨[missingSpec]⟩ =
      .panic (.goError ⟨"open: no such file or directory"⟩) :=
  ⟨rfl, rfl⟩

/-- C9 amended: when `readFromSpec` returns an error for a spec and the specs
before it were read and given columns, `dynamicTables` panics with that error
and registers nothing.  When `dynamicTables` returns, it returns one table per
spec, in order, named `spec.Table`, with the columns of the filtered result,
and the resolver of the table sends exactly the already computed filtered
result and returns no error; it does return when every spec is read and given
columns.  The resolver closure, given a stored error, would send nothing and
return that error. -/
theorem dynamicTables_panics_or_replays (W : World) (client : Client) :
    (∀ pre spec post e, client.Files = pre ++ spec :: post →
      (∀ s ∈ pre, ∃ r cols, readFromSpec W s = .ok r ∧ getColumns r s = .ok cols) →
      readFromSpec W spec = .error e → dynamicTables W client = .panic (.goError e)) ∧
    (∀ tables, dynamicTables W client = .ok tables →
      List.Forall₂ (Registered W) client.Files tables) ∧
    ((∀ s ∈ client.Files, ∃ r cols, readFromSpec W s = .ok r ∧ getColumns r s = .ok cols) →
      ∃ tables, dynamicTables W client = .ok tables) ∧
    (∀ result e res, tableResolver result (some e) res = (res, some e)) := by
  refine ⟨?_, ?_, ?_, fun _ _ _ => rfl⟩
  · intro pre spec post e hfiles hpre herr
    unfold dynamicTables
    rw [hfiles]
    exact dynamicTablesLoop_read_error W pre spec post e [] hpre herr
  · intro tables h
    obtain ⟨new, hout, hall⟩ := dynamicTablesLoop_ok W client.Files [] tables h
    simpa [hout] using hall
  · intro hall
    exact dynamicTablesLoop_returns W client.Files [] hall

theorem dynamicTables_panics_or_replays_witness :
    (⟨[currentNodeSpec, missingSpec]⟩ : Client).Files = [currentNodeSpec] ++ missingSpec :: [] ∧
    (∀ s ∈ [currentNodeSpec], ∃ r cols,
      readFromSpec sampleWorld s = .ok r ∧ getColumns r s = .ok cols) ∧
    readFromSpec sampleWorld missingSpec = .error ⟨"open: no such file or directory"⟩ ∧
    dynamicTables sampleWorld ⟨[currentNodeSpec, missingSpec]⟩ =
      .panic (.goError ⟨"open: no such file or directory"⟩) :=
  have hpre : ∀ s ∈ [currentNodeSpec], ∃ r cols,
      readFromSpec sampleWorld s = .ok r ∧ getColumns r s = .ok cols := by
    intro s hs
    rw [List.mem_singleton] at hs
    subst hs
    exact ⟨_, _, rfl, rfl⟩
  ⟨rfl, hpre, rfl,
    (dynamicTables_panics_or_replays sampleWorld ⟨[currentNodeSpec, missingSpec]⟩).1
      [currentNodeSpec] missingSpec [] ⟨"open: no such file or directory"⟩ rfl hpre rfl⟩

end Plugin
